import Mathlib

/-!
Verification development for the Documentation Assistant frontend
(src/frontend/src/AssistantService.js, src/frontend/src/App.js,
src/frontend/src/components/SourceViewer.jsx) against its natural-language
specification.

The JavaScript code is shallowly embedded: each handler becomes a pure Lean
function over an explicit state record.  JavaScript truthiness on strings,
numbers and optional fields is modelled explicitly (the empty string, the
number 0, null and undefined are falsy).  A JavaScript object field that may
be absent is an outer `Option`; a field that may be explicitly `null` is an
inner `Option`.
-/

namespace DocAssistant

/-- JavaScript string truthiness: the empty string is falsy. -/
def jsTruthyStr (s : String) : Bool := !s.isEmpty

/-- JavaScript `s.trim()`: strip whitespace from both ends.  (Defined over
the character list so it evaluates structurally.) -/
def jsTrim (s : String) : String :=
  ⟨((s.data.dropWhile Char.isWhitespace).reverse.dropWhile
      Char.isWhitespace).reverse⟩

/-- JavaScript `a || d` for an optional string `a`: absent, null-collapsed or
empty strings fall through to the default. -/
def jsOrStr (o : Option String) (d : String) : String :=
  match o with
  | none => d
  | some s => if s.isEmpty then d else s

/-- JavaScript `a || d` for an optional number: absent or `0` falls through. -/
def jsOrQ (o : Option ℚ) (d : ℚ) : ℚ :=
  match o with
  | none => d
  | some x => if x = 0 then d else x

/-- JavaScript `a || d` for an optional natural number (`0` is falsy). -/
def jsOrNat (o : Option Nat) (d : Nat) : Nat :=
  match o with
  | none => d
  | some x => if x = 0 then d else x

/-- Object-literal merge `{ key : default, ...spread }`: when the spread
object carries the key (even with value null), it overrides the default;
when the key is absent the default survives.  The outer `Option` is key
presence in the spread object, the inner value is the delivered one. -/
def jsMerge {α : Type} (key : Option (Option α)) (dflt : α) : Option α :=
  match key with
  | none => some dflt
  | some v => v

/-- Left-to-right concatenation of a list of text fragments. -/
def concatFrags : List String → String
  | [] => ""
  | c :: ts => c ++ concatFrags ts

/-! ## Data model: messages -/

/-- A conversation turn's role (App.js history entries). -/
inductive Role where
  | user
  | assistant
deriving Repr, DecidableEq

/-- One entry of the App.js `history` state: a role and a content that is
`none` while the assistant turn is still pending. -/
structure Msg where
  role : Role
  content : Option String
deriving Repr, DecidableEq

/-! ## AssistantService.streamResponse: the stream-session client

`streamResponse(thread_id, onMessageCallback, onErrorCallback,
onCompleteCallback)` opens an EventSource on
`${BASE_URL}/graph/stream/${thread_id}` and installs listeners for the
`token`, `sources`, `status`, `start` and `resume` events plus `onerror`.
Per-session state is the `isConnected` and `sourcesReceived` locals; the
cross-session state is the global `window._hasReceivedStatusEvent` map,
keyed by the connection URL. -/

/-- The base URL of AssistantService.js. -/
def BASE_URL : String := "http://localhost:8000"

/-- The EventSource URL used by `streamResponse` for a thread id. -/
def streamUrl (thread_id : String) : String :=
  BASE_URL ++ "/graph/stream/" ++ thread_id

/-- EventSource readyState as inspected by the `onerror` handler. -/
inductive ReadyState where
  | connecting
  | opened
  | closed
deriving Repr, DecidableEq

/-- Raw `source.metadata`: each key may be absent (outer `none`) or present
with a possibly-null value.  JS field `section` is `sectionName` here
(`section` is a Lean keyword).  Extra backend-specific keys carried through
the `...source.metadata` spread are not modelled. -/
structure RawMetadata where
  file : Option (Option String) := none
  sectionName : Option (Option String) := none
  validated : Option (Option Bool) := none
  chunk_type : Option (Option String) := none
  has_code : Option (Option Bool) := none
deriving Repr, DecidableEq

/-- A raw context candidate as it arrives in a `sources` event, before the
`validatedSources` normalization.  Absent fields are `none`. -/
structure RawSource where
  index : Option Nat := none
  content : Option String := none
  source_type : Option String := none
  confidence : Option ℚ := none
  metadata : Option RawMetadata := none
deriving Repr, DecidableEq

/-- A candidate after the `validatedSources` mapping: every required field
is present (metadata values can still be null when the incoming object
carried an explicit null, since the spread overrides the defaults). -/
structure ValidatedMetadata where
  file : Option String
  sectionName : Option String
  validated : Option Bool
  chunk_type : Option String
  has_code : Option Bool
deriving Repr, DecidableEq

structure ValidatedSource where
  index : Nat
  content : String
  source_type : String
  confidence : ℚ
  metadata : ValidatedMetadata
deriving Repr, DecidableEq

/-- The metadata block built by the listener:
`{ file: m?.file || 'Unknown', section: m?.section || '', validated:
m?.validated || false, chunk_type: m?.chunk_type || 'text', has_code:
m?.has_code || false, ...source.metadata }`.  When `source.metadata` is
undefined the spread adds nothing and the defaults survive. -/
def validateMetadata (m? : Option RawMetadata) : ValidatedMetadata :=
  match m? with
  | none =>
    { file := some "Unknown", sectionName := some "", validated := some false
      chunk_type := some "text", has_code := some false }
  | some m =>
    { file := jsMerge m.file "Unknown"
      sectionName := jsMerge m.sectionName ""
      validated := jsMerge m.validated false
      chunk_type := jsMerge m.chunk_type "text"
      has_code := jsMerge m.has_code false }

/-- One element of the `data.sources.map((source, index) => ...)` call:
`index: source.index || index + 1`, `content: source.content || ''`,
`source_type: source.source_type || 'rag'`,
`confidence: source.confidence || 0.0`. -/
def validateSource (i : Nat) (s : RawSource) : ValidatedSource :=
  { index := jsOrNat s.index (i + 1)
    content := jsOrStr s.content ""
    source_type := jsOrStr s.source_type "rag"
    confidence := jsOrQ s.confidence 0
    metadata := validateMetadata s.metadata }

/-- The `data.sources.map((source, index) => ...)` call. -/
def validateSources (xs : List RawSource) : List ValidatedSource :=
  (xs.enum).map (fun p => validateSource p.1 p.2)

/-- The `sources` field of a parsed `sources` event: the listener drops the
event unless `data.sources` is present and an array. -/
inductive JsSourcesField where
  | absent
  | notArray
  | arr (xs : List RawSource)
deriving Repr, DecidableEq

/-- Parsed payload of a `sources` event (`data.source_types` is forwarded
verbatim and unused by the app; it is not modelled). -/
structure SourcesData where
  sources : JsSourcesField
  confidence : Option ℚ := none
  retrieval_time_ms : Option ℚ := none
deriving Repr, DecidableEq

/-- A message delivered to `onMessageCallback`: `{content}` from the token
listener (the content field may be absent when the parsed JSON has none),
`{sources, confidence, retrieval_time_ms}` from the sources listener,
`{status}` from the status listener (its `metrics`/`stream_time_ms` extras
are unused by the app and not modelled). -/
inductive StreamMsg where
  | content (c : Option String)
  | sourcesMsg (xs : List ValidatedSource) (confidence : ℚ) (retrieval_time_ms : ℚ)
  | statusMsg (v : String)
deriving Repr, DecidableEq

/-- Which callback a handler invocation fires. -/
inductive Outcome where
  | message (m : StreamMsg)
  | error
  | complete
  | silent
deriving Repr, DecidableEq

/-- An event delivered to one stream session.  For `token`/`status`/`sources`
the outer `Option` is JSON.parse success; the `startEv`/`resumeEv` listeners
only log.  `errorEvent` is the `onerror` handler with the observed
readyState. -/
inductive SEvent where
  | token (d : Option (Option String))
  | sources (d : Option SourcesData)
  | status (d : Option String)
  | startEv
  | resumeEv
  | errorEvent (rs : ReadyState)
deriving Repr, DecidableEq

/-- Per-session and global state of `streamResponse`: the `isConnected` and
`sourcesReceived` locals plus the global `window._hasReceivedStatusEvent`
map, modelled as the list of URLs marked true (membership = marked). -/
structure SessionState where
  isConnected : Bool
  sourcesReceived : Bool
  flags : List String
deriving Repr, DecidableEq

/-- A freshly opened session (`let isConnected = true; let sourcesReceived =
false`) sharing the given global map. -/
def freshSession (flags : List String) : SessionState :=
  { isConnected := true, sourcesReceived := false, flags := flags }

/-- One handler invocation of the session opened on `url`.  Translated
clause by clause from `streamResponse` in AssistantService.js. -/
def streamStep (url : String) (s : SessionState) (ev : SEvent) :
    SessionState × Outcome :=
  match ev with
  | .token d =>
    if !s.isConnected then (s, .silent)
    else
      match d with
      | some c => (s, .message (.content c))
      | none => (s, .error)
  | .sources d =>
    if !s.isConnected then (s, .silent)
    else
      match d with
      | none => (s, .silent)
      | some data =>
        match data.sources with
        | .absent => (s, .silent)
        | .notArray => (s, .silent)
        | .arr xs =>
          ({ s with sourcesReceived := true },
           .message (.sourcesMsg (validateSources xs)
             (jsOrQ data.confidence 0) (jsOrQ data.retrieval_time_ms 0)))
  | .status d =>
    if !s.isConnected then (s, .silent)
    else
      match d with
      | none => (s, .error)
      | some v => ({ s with flags := url :: s.flags }, .message (.statusMsg v))
  | .startEv => (s, .silent)
  | .resumeEv => (s, .silent)
  | .errorEvent rs =>
    if s.flags.contains url then
      ({ s with isConnected := false }, .complete)
    else if rs = .closed then
      ({ s with isConnected := false }, .complete)
    else if rs = .connecting then
      (s, .silent)
    else
      ({ s with isConnected := false }, .error)

/-! ## App.js: the conversation page

The page state (`useState` hooks plus the accumulated-response refs) and the
handlers `handleStart`, `handleApprove`, `handleFeedback`, the feedback form
and the question input.  Rendering conditions of the source become guards on
the corresponding user events: the question input and Send button are
rendered only while `uiState === "idle" && history.length === 0`, the
Approve / Provide-Feedback buttons only while `uiState === "idle"` and the
last assistant turn (or `assistantResponse`) is truthy, the feedback form
only while `uiState === "user_feedback"`.  The model covers a single
conversation lifecycle (the New Session reset, which abandons the
conversation, is out of scope of the history claims).  `setErrorMessage`,
`setValidationSuccess` and the document-stats reload are display-only and
tracked only where cheap. -/

/-- Which streaming pass is live, i.e. which handler's callbacks the open
EventSource feeds.  The start pass closure captures the question text. -/
inductive Phase where
  | idlePhase
  | startPass (q : String)
  | approvePass
  | feedbackPass
deriving Repr, DecidableEq

/-- An HTTP request issued by the handlers: `POST /graph/stream/create` with
the question, or `POST /graph/stream/resume` with a review action and the
optional `human_comment` field. -/
inductive ApiRequest where
  | start (human_request : String)
  | resume (review_action : String) (human_comment : Option String)
deriving Repr, DecidableEq

/-- The body of `resumeStreamingConversation` includes `human_comment` only
when it is truthy (`if (human_comment) body.human_comment = human_comment`). -/
def mkResume (review_action : String) (human_comment : String) : ApiRequest :=
  .resume review_action
    (if human_comment.isEmpty then none else some human_comment)

/-- The App component state.  `acc` is the accumulated-response ref of the
live pass (the three refs of the source never overlap, since each pass
resets its own ref to "" before streaming).  `requests` is the observable
log of issued API requests. -/
structure AppState where
  uiState : String
  question : String
  feedback : String
  assistantResponse : String
  history : List Msg
  sources : List ValidatedSource
  retrievalConfidence : Option ℚ
  validationSuccess : Bool
  phase : Phase
  acc : String
  requests : List ApiRequest
deriving Repr, DecidableEq

/-- Initial component state. -/
def initState : AppState :=
  { uiState := "idle", question := "", feedback := "", assistantResponse := ""
    history := [], sources := [], retrievalConfidence := none
    validationSuccess := false, phase := .idlePhase, acc := ""
    requests := [] }

/-- The `clearSources()` helper. -/
def clearSourcesFn (s : AppState) : AppState :=
  { s with sources := [], retrievalConfidence := none
           validationSuccess := false }

/-- The synchronous effect of `handleStart` (streaming branch): waiting
state, cleared sources, a fresh two-entry history with a pending assistant
turn, the create request, and a reset accumulator before the stream opens.
The filename-enhancement of `handleSourcesEvent` rewrites only candidate
metadata for display and is elided. -/
def handleStartInit (s : AppState) : AppState :=
  { clearSourcesFn s with
      uiState := "waiting"
      history := [⟨.user, some s.question⟩, ⟨.assistant, none⟩]
      assistantResponse := ""
      acc := ""
      phase := .startPass s.question
      requests := s.requests ++ [.start s.question] }

/-- The synchronous effect of `handleApprove`: waiting state, a pending
assistant turn appended, the approved resume request (no comment), reset
accumulator. -/
def handleApproveInit (s : AppState) : AppState :=
  { s with
      uiState := "waiting"
      history := s.history ++ [⟨.assistant, none⟩]
      assistantResponse := ""
      acc := ""
      phase := .approvePass
      requests := s.requests ++ [.resume "approved" none] }

/-- The synchronous effect of `handleFeedback`: waiting state, the feedback
comment appended as a user turn plus a pending assistant turn, the feedback
resume request carrying the comment, reset accumulator, cleared textarea. -/
def handleFeedbackInit (s : AppState) : AppState :=
  { s with
      uiState := "waiting"
      history := s.history ++ [⟨.user, some s.feedback⟩, ⟨.assistant, none⟩]
      assistantResponse := ""
      acc := ""
      feedback := ""
      phase := .feedbackPass
      requests := s.requests ++ [mkResume "feedback" s.feedback] }

/-- The `handleStart` stream callback on a delivered token fragment:
`if (data.content)` — empty fragments are skipped; otherwise the fragment is
appended to the ref and the whole history is rewritten to the question plus
the accumulated draft. -/
def startTok (q c : String) (s : AppState) : AppState :=
  if c.isEmpty then s
  else
    let a := s.acc ++ c
    { s with acc := a, assistantResponse := a
             history := [⟨.user, some q⟩, ⟨.assistant, some a⟩] }

/-- The `handleApprove`/`handleFeedback` stream callbacks on a token
fragment: the last history entry is substituted
(`prev.slice(0, -1)` plus the accumulated draft). -/
def tailTok (c : String) (s : AppState) : AppState :=
  if c.isEmpty then s
  else
    let a := s.acc ++ c
    { s with acc := a, assistantResponse := a
             history := s.history.dropLast ++ [⟨.assistant, some a⟩] }

/-- Status dispatch of the `handleStart`/`handleFeedback` callbacks. -/
def statusStartFeedback (v : String) (s : AppState) : AppState :=
  if v = "user_feedback" then { s with uiState := "idle" }
  else if v = "finished" then { s with uiState := "finished" }
  else s

/-- Status dispatch of the `handleApprove` callback (only `finished` is
handled; it also records the validation success and reloads stats). -/
def statusApprove (v : String) (s : AppState) : AppState :=
  if v = "finished" then
    { s with uiState := "finished", validationSuccess := true }
  else s

/-- Truthiness of a nullable string field. -/
def jsTruthyOptStr (c : Option String) : Bool :=
  match c with
  | some c => jsTruthyStr c
  | none => false

/-- Render condition of the Approve and Provide-Feedback buttons:
`assistantResponse || (history.length > 0 && last.role === "assistant" &&
last.content)`. -/
def reviewButtonsVisible (s : AppState) : Bool :=
  jsTruthyStr s.assistantResponse ||
    (!s.history.isEmpty &&
      (match s.history.getLast? with
       | some m => decide (m.role = .assistant) && jsTruthyOptStr m.content
       | none => false))

/-- User and stream events of the page. -/
inductive AppEvent where
  | setQuestionText (q : String)
  | sendClick
  | enterKey (k : String)
  | tok (c : String)
  | sourcesEv (xs : List ValidatedSource) (conf : ℚ)
  | statusEv (v : String)
  | streamError
  | approveClick
  | openFeedbackForm
  | setFeedbackText (f : String)
  | feedbackSubmitClick
  | cancelFeedback
deriving Repr, DecidableEq

/-- One page transition.  Guards are the rendering/disabled conditions of
the source; an event whose guard fails leaves the state unchanged. -/
def stepApp (s : AppState) (ev : AppEvent) : AppState :=
  match ev with
  | .setQuestionText q =>
    if s.uiState = "idle" ∧ s.history = [] then { s with question := q } else s
  | .sendClick =>
    if s.uiState = "idle" ∧ s.history = [] ∧ ¬(jsTrim s.question = "") then
      handleStartInit s
    else s
  | .enterKey k =>
    if s.uiState = "idle" ∧ s.history = [] ∧ k = "Enter" ∧
        ¬(jsTrim s.question = "") then
      handleStartInit s
    else s
  | .tok c =>
    match s.phase with
    | .startPass q => startTok q c s
    | .approvePass => tailTok c s
    | .feedbackPass => tailTok c s
    | .idlePhase => s
  | .sourcesEv xs conf =>
    match s.phase with
    | .startPass _ =>
      { s with sources := xs
               retrievalConfidence := if conf = 0 then none else some conf }
    | .feedbackPass =>
      { s with sources := xs
               retrievalConfidence := if conf = 0 then none else some conf }
    | _ => s
  | .statusEv v =>
    match s.phase with
    | .startPass _ => statusStartFeedback v s
    | .feedbackPass => statusStartFeedback v s
    | .approvePass => statusApprove v s
    | .idlePhase => s
  | .streamError =>
    match s.phase with
    | .idlePhase => s
    | _ => { s with uiState := "idle" }
  | .approveClick =>
    if s.uiState = "idle" ∧ reviewButtonsVisible s then handleApproveInit s
    else s
  | .openFeedbackForm =>
    if s.uiState = "idle" ∧ reviewButtonsVisible s then
      { s with uiState := "user_feedback" }
    else s
  | .setFeedbackText f =>
    if s.uiState = "user_feedback" then { s with feedback := f } else s
  | .feedbackSubmitClick =>
    if s.uiState = "user_feedback" ∧ ¬(jsTrim s.feedback = "") then
      handleFeedbackInit s
    else s
  | .cancelFeedback =>
    if s.uiState = "user_feedback" then
      { s with uiState := "idle", feedback := "" }
    else s

/-- The page state reached from the initial state by an event trace. -/
def reach (evs : List AppEvent) : AppState := evs.foldl stepApp initState

/-! ## Composition of the stream client with the App callbacks

Each delivered `onMessageCallback` payload maps to the page event the
callback dispatch (`if (data.content) ... else if (data.sources) ... else if
(data.status)`) selects; an absent content field is falsy just like the
empty string. -/

/-- The page event triggered by a delivered stream message. -/
def eventOfMsg (m : StreamMsg) : AppEvent :=
  match m with
  | .content c => .tok (c.getD "")
  | .sourcesMsg xs conf _ => .sourcesEv xs conf
  | .statusMsg v => .statusEv v

/-- Feed one EventSource event through `streamStep` and deliver the
resulting callback to the page. -/
def stepWithStream (url : String) (p : AppState × SessionState)
    (ev : SEvent) : AppState × SessionState :=
  let r := streamStep url p.2 ev
  match r.2 with
  | .message m => (stepApp p.1 (eventOfMsg m), r.1)
  | .error => (stepApp p.1 .streamError, r.1)
  | .complete => (p.1, r.1)
  | .silent => (p.1, r.1)

/-- A `token` EventSource event whose JSON parses to `{content: c}`. -/
def mkTok (c : String) : SEvent := .token (some (some c))

/-! ## SourceViewer.jsx -/

/-- The mean `sources.reduce((sum, s) => sum + s.confidence, 0) / sources.length`. -/
def svMean (srcs : List ValidatedSource) : ℚ :=
  ((srcs.map (fun s => s.confidence)).sum) / (srcs.length : ℚ)

/-- SourceViewer's `avgConfidence = confidence || (mean of the candidates)`:
the `confidence` prop may be null and, being a number, `0` is falsy. -/
def svAvgConfidence (confidence : Option ℚ) (srcs : List ValidatedSource) : ℚ :=
  jsOrQ confidence (svMean srcs)

/-! ## Spec-modelled backend parts

The backend (Stream Multiplexer and Session Orchestrator) is not part of
the repository sources; only its client callers are.  The definitions below
are modelled from the spec and marked as such. -/

/-- Modelled from the spec: the Stream Multiplexer's aggregate confidence
for a `sources` event is missing from the sources (only the client consumer
is present); spec section 4.2 makes it "the mean of candidate confidences,
or 0 if empty". -/
def sourcesEventConfidence (confs : List ℚ) : ℚ :=
  if confs = [] then 0 else confs.sum / (confs.length : ℚ)

/-- A raw candidate carrying only a confidence score, as produced by a
backend whose candidates always carry their scores. -/
def rawOfConfidence (c : ℚ) : RawSource := { confidence := some c }

/-- Conversation stage, spec section 3/4.1. -/
inductive Stage where
  | retrieving
  | drafting
  | awaitingDecision
  | finalizing
  | finished
deriving Repr, DecidableEq

/-- A resume decision: `approved`, `feedback` with a comment, or any other
(rejected) value. -/
inductive Decision where
  | approved
  | feedback (comment : String)
  | other (value : String)
deriving Repr, DecidableEq

/-- Modelled from the spec: the Conversation record of the Conversation
Store (spec section 3); the backend holding it is missing from the
sources. -/
structure Conversation where
  stage : Stage
  messages : List Msg
  humanComment : Option String
deriving Repr, DecidableEq

/-- The Conversation Store: conversation id to state snapshot. -/
abbrev Store := List (String × Conversation)

def lookupConv (st : Store) (tid : String) : Option Conversation :=
  (st.find? (fun p => p.1 == tid)).map (fun p => p.2)

def updateConv (st : Store) (tid : String) (c : Conversation) : Store :=
  st.map (fun p => if p.1 == tid then (p.1, c) else p)

/-- Modelled from the spec: the Session Orchestrator's Resume operation
(spec sections 4.1/4.3) is missing from the sources (only the client caller
`resumeStreamingConversation` is present).  It validates that the
conversation exists and is in AwaitingDecision, otherwise rejects without a
state change; `approved` proceeds synchronously through Finalizing into
Finished, `feedback` with a non-empty comment appends the comment as a user
message and re-enters Drafting, anything else is invalid input.  The result
pairs the response with the (possibly unchanged) store. -/
def resumeConversation (st : Store) (tid : String) (d : Decision) :
    Except String String × Store :=
  match lookupConv st tid with
  | none => (.error "conversation not found", st)
  | some c =>
    if c.stage = .awaitingDecision then
      match d with
      | .approved =>
        (.ok tid, updateConv st tid { c with stage := .finished })
      | .feedback comment =>
        if jsTrim comment = "" then (.error "empty feedback comment", st)
        else
          (.ok tid,
           updateConv st tid
             { c with stage := .drafting
                      messages := c.messages ++ [⟨.user, some comment⟩]
                      humanComment := some comment })
      | .other _ => (.error "invalid decision", st)
    else (.error "conversation is not awaiting a decision", st)

/-! ## History invariants -/

/-- Number of pending (content = null) turns in a history. -/
def pendingCount (h : List Msg) : Nat :=
  (h.filter (fun m => m.content.isNone)).length

/-- Every entry but possibly the last carries committed content. -/
def dropLastCommitted (h : List Msg) : Prop :=
  ∀ m ∈ h.dropLast, m.content.isSome = true

/-- The last entry (when any) carries committed content. -/
def lastCommitted (h : List Msg) : Prop :=
  ∀ m ∈ h.getLast?, m.content.isSome = true

/-- The inductive invariant of the page state: only the trailing entry may
be pending, the feedback form and the review buttons are only reachable
over a committed history, and during a live pass the history tracks the
accumulator. -/
def Inv (s : AppState) : Prop :=
  dropLastCommitted s.history ∧
  (s.uiState = "user_feedback" → lastCommitted s.history) ∧
  (s.uiState = "idle" → ¬(s.assistantResponse = "") → lastCommitted s.history) ∧
  (∀ q, s.phase = .startPass q →
    s.history =
      [⟨.user, some q⟩,
       ⟨.assistant, if s.acc = "" then none else some s.acc⟩] ∧
    s.assistantResponse = s.acc) ∧
  ((s.phase = .approvePass ∨ s.phase = .feedbackPass) →
    ¬(s.history = []) ∧
    (¬(s.assistantResponse = "") → lastCommitted s.history))

/-- One step never rewrites the already-settled part of the history: the
new history extends the old history minus its (possibly pending) last
entry. -/
def StepExtends (h h' : List Msg) : Prop := ∃ t, h' = h.dropLast ++ t

/-! ## Concrete states used by witnesses -/

def c5StateBlank : AppState :=
  { initState with uiState := "user_feedback", feedback := "   " }

def c5StateFilled : AppState :=
  { initState with uiState := "user_feedback", feedback := "use bullet points" }

def c6StateBlank : AppState := { initState with question := " " }

def c6StateFilled : AppState := { initState with question := "what is X" }

def c8Store : Store :=
  [("t1", { stage := .drafting, messages := [⟨.user, some "Q1"⟩], humanComment := none })]

/-- One full feedback round as driven through the page: ask "Q1", stream the
first draft, reach the decision point, open the feedback form, submit
"be shorter", stream the redraft, reach the decision point again. -/
def c3Trace (ds1 ds2 : List String) : List AppEvent :=
  [.setQuestionText "Q1", .sendClick] ++ ds1.map .tok ++
    [.statusEv "user_feedback", .openFeedbackForm,
     .setFeedbackText "be shorter", .feedbackSubmitClick] ++
    ds2.map .tok ++ [.statusEv "user_feedback"]

/-! ## Helper lemmas -/

theorem isEmpty_false_iff {s : String} : s.isEmpty = false ↔ ¬(s = "") := by
  constructor
  · intro h hc
    subst hc
    exact (by decide : ¬("".isEmpty = false)) h
  · intro h
    cases he : s.isEmpty
    · rfl
    · exact absurd ((String.isEmpty_iff s).mp he) h

theorem jsTruthyStr_iff {s : String} : jsTruthyStr s = true ↔ ¬(s = "") := by
  rw [jsTruthyStr, Bool.not_eq_true']
  exact isEmpty_false_iff

theorem append_ne_empty_of_right {a b : String} (h : ¬(b = "")) :
    ¬(a ++ b = "") := by
  intro hc
  apply h
  have hd : (a ++ b).data = "".data := congrArg String.data hc
  simp [String.data_append] at hd
  exact String.ext hd.2

theorem empty_append_str (s : String) : "" ++ s = s := String.empty_append s

theorem concatFrags_ne_empty {c : String} (hc : ¬(c = "")) (ts : List String) :
    ¬(ts.foldr (fun a b => a ++ b) c = "") := by
  induction ts with
  | nil => simpa using hc
  | cons t ts ih => simpa using append_ne_empty_of_right ih

theorem self_extends (h : List Msg) : ∃ t, h = h.dropLast ++ t := by
  rcases eq_or_ne h [] with rfl | hne
  · exact ⟨[], rfl⟩
  · exact ⟨[h.getLast hne], (List.dropLast_append_getLast hne).symm⟩

theorem allCommitted_of {h : List Msg} (hA : dropLastCommitted h)
    (hL : lastCommitted h) : ∀ m ∈ h, m.content.isSome = true := by
  rcases eq_or_ne h [] with rfl | hne
  · simp
  · intro m hm
    rw [← List.dropLast_append_getLast hne] at hm
    rcases List.mem_append.mp hm with hm | hm
    · exact hA m hm
    · have hmem : m ∈ h.getLast? := by
        rw [List.getLast?_eq_getLast h hne]
        simpa using (List.mem_singleton.mp hm).symm
      exact hL m hmem

theorem pendingCount_le_one {h : List Msg} (hA : dropLastCommitted h) :
    pendingCount h ≤ 1 := by
  rcases eq_or_ne h [] with rfl | hne
  · simp [pendingCount]
  · have hrepr := (List.dropLast_append_getLast hne).symm
    calc pendingCount h
        = pendingCount (h.dropLast ++ [h.getLast hne]) := by rw [← hrepr]
      _ ≤ 1 := by
          have hnil : h.dropLast.filter (fun m => m.content.isNone) = [] := by
            rw [List.filter_eq_nil_iff]
            intro m hm
            have hs := hA m hm
            cases hmc : m.content
            · rw [hmc] at hs
              simp at hs
            · simp
          simp only [pendingCount, List.filter_append, hnil,
            List.nil_append]
          cases hmc : (h.getLast hne).content <;>
            simp [List.filter_cons, hmc]

theorem dlc_pair (r1 : Role) (c : String) (m2 : Msg) :
    dropLastCommitted [⟨r1, some c⟩, m2] := by
  intro m hm
  simp [List.dropLast] at hm
  rw [hm]
  rfl

theorem dlc_concat_of {h : List Msg} (hall : ∀ m ∈ h, m.content.isSome = true)
    (x : Msg) : dropLastCommitted (h ++ [x]) := by
  intro m hm
  rw [List.dropLast_concat] at hm
  exact hall m hm

theorem lc_concat (h : List Msg) {m : Msg} (hm : m.content.isSome = true) :
    lastCommitted (h ++ [m]) := by
  intro x hx
  rw [List.getLast?_concat] at hx
  have : x = m := by simpa using hx.symm
  rw [this]
  exact hm

theorem lc_pair (m1 : Msg) (r : Role) (c : String) :
    lastCommitted [m1, ⟨r, some c⟩] := by
  intro x hx
  simp [List.getLast?] at hx
  rw [← hx]
  rfl

theorem append_two_eq (h : List Msg) (x y : Msg) :
    h ++ [x, y] = (h ++ [x]) ++ [y] := by
  rw [List.append_assoc]
  rfl

theorem lastCommitted_of_buttons {s : AppState}
    (hC : s.uiState = "idle" → ¬(s.assistantResponse = "") → lastCommitted s.history)
    (hui : s.uiState = "idle") (hbtn : reviewButtonsVisible s = true) :
    lastCommitted s.history := by
  rw [reviewButtonsVisible, Bool.or_eq_true] at hbtn
  rcases hbtn with hresp | hlast
  · exact hC hui (jsTruthyStr_iff.mp hresp)
  · rw [Bool.and_eq_true] at hlast
    obtain ⟨_, hmatch⟩ := hlast
    intro m hm
    cases hg : s.history.getLast? with
    | none =>
      rw [hg] at hm
      simp at hm
    | some m0 =>
      rw [hg] at hmatch hm
      simp [jsTruthyOptStr] at hmatch
      have hm0 : m = m0 := by simpa using hm.symm
      rw [hm0]
      cases hmc : m0.content with
      | none =>
        rw [hmc] at hmatch
        simp at hmatch
      | some c => simp [hmc]

theorem inv_init : Inv initState := by
  refine ⟨?_, ?_, ?_, ?_, ?_⟩
  · intro m hm
    simp [initState] at hm
  · intro _ m hm
    simp [initState] at hm
  · intro _ hr
    exact absurd rfl hr
  · intro q hq
    simp [initState] at hq
  · intro hq
    simp [initState] at hq

theorem inv_step {s : AppState} (hs : Inv s) (ev : AppEvent) :
    Inv (stepApp s ev) := by
  obtain ⟨hA, hB, hC, hD, hE⟩ := hs
  cases ev with
  | setQuestionText q =>
    by_cases hg : s.uiState = "idle" ∧ s.history = []
    · simp only [stepApp, if_pos hg]
      exact ⟨hA, hB, hC, hD, hE⟩
    · simp only [stepApp, if_neg hg]
      exact ⟨hA, hB, hC, hD, hE⟩
  | sendClick =>
    by_cases hg : s.uiState = "idle" ∧ s.history = [] ∧ ¬(jsTrim s.question = "")
    · simp only [stepApp, if_pos hg, handleStartInit, clearSourcesFn]
      refine ⟨dlc_pair _ _ _, ?_, ?_, ?_, ?_⟩
      · intro h
        simp at h
      · intro h
        simp at h
      · intro q hq
        simp at hq
        subst hq
        exact ⟨by simp, rfl⟩
      · intro h
        rcases h with h | h <;> simp at h
    · simp only [stepApp, if_neg hg]
      exact ⟨hA, hB, hC, hD, hE⟩
  | enterKey k =>
    by_cases hg : s.uiState = "idle" ∧ s.history = [] ∧ k = "Enter" ∧
        ¬(jsTrim s.question = "")
    · simp only [stepApp, if_pos hg, handleStartInit, clearSourcesFn]
      refine ⟨dlc_pair _ _ _, ?_, ?_, ?_, ?_⟩
      · intro h
        simp at h
      · intro h
        simp at h
      · intro q hq
        simp at hq
        subst hq
        exact ⟨by simp, rfl⟩
      · intro h
        rcases h with h | h <;> simp at h
    · simp only [stepApp, if_neg hg]
      exact ⟨hA, hB, hC, hD, hE⟩
  | tok c =>
    cases hph : s.phase with
    | idlePhase =>
      simp only [stepApp, hph]
      exact ⟨hA, hB, hC, hD, hE⟩
    | startPass q =>
      obtain ⟨hhist, hresp⟩ := hD q hph
      simp only [stepApp, hph, startTok]
      by_cases hc : c.isEmpty
      · simp only [if_pos hc]
        exact ⟨hA, hB, hC, hD, hE⟩
      · simp only [if_neg hc]
        have hcne : ¬(c = "") := isEmpty_false_iff.mp (Bool.of_not_eq_true hc)
        have hane : ¬(s.acc ++ c = "") := append_ne_empty_of_right hcne
        refine ⟨dlc_pair _ _ _, ?_, ?_, ?_, ?_⟩
        · intro _
          exact lc_pair _ _ _
        · intro _ _
          exact lc_pair _ _ _
        · intro q' hq'
          have hq2 : q = q' := by simpa [hph] using hq'
          subst hq2
          refine ⟨?_, rfl⟩
          simp [if_neg hane]
        · intro h
          rcases h with h | h <;> simp [hph] at h
    | approvePass =>
      obtain ⟨hne, himp⟩ := hE (Or.inl hph)
      simp only [stepApp, hph, tailTok]
      by_cases hc : c.isEmpty
      · simp only [if_pos hc]
        exact ⟨hA, hB, hC, hD, hE⟩
      · simp only [if_neg hc]
        refine ⟨dlc_concat_of hA _, ?_, ?_, ?_, ?_⟩
        · intro _
          exact lc_concat _ rfl
        · intro _ _
          exact lc_concat _ rfl
        · intro q' hq'
          simp [hph] at hq'
        · intro _
          refine ⟨by simp, ?_⟩
          intro _
          exact lc_concat _ rfl
    | feedbackPass =>
      obtain ⟨hne, himp⟩ := hE (Or.inr hph)
      simp only [stepApp, hph, tailTok]
      by_cases hc : c.isEmpty
      · simp only [if_pos hc]
        exact ⟨hA, hB, hC, hD, hE⟩
      · simp only [if_neg hc]
        refine ⟨dlc_concat_of hA _, ?_, ?_, ?_, ?_⟩
        · intro _
          exact lc_concat _ rfl
        · intro _ _
          exact lc_concat _ rfl
        · intro q' hq'
          simp [hph] at hq'
        · intro _
          refine ⟨by simp, ?_⟩
          intro _
          exact lc_concat _ rfl
  | sourcesEv xs conf =>
    cases hph : s.phase with
    | idlePhase =>
      simp only [stepApp, hph]
      exact ⟨hA, hB, hC, hD, hE⟩
    | startPass q =>
      simp only [stepApp, hph]
      refine ⟨hA, hB, hC, ?_, ?_⟩
      · intro q' hq'
        have hq2 : q = q' := by simpa using hq'
        subst hq2
        exact hD q hph
      · intro h
        rcases h with h | h <;> simp at h
    | approvePass =>
      simp only [stepApp, hph]
      exact ⟨hA, hB, hC, hD, hE⟩
    | feedbackPass =>
      simp only [stepApp, hph]
      refine ⟨hA, hB, hC, ?_, ?_⟩
      · intro q' hq'
        simp at hq'
      · intro _
        exact hE (Or.inr hph)
  | statusEv v =>
    cases hph : s.phase with
    | idlePhase =>
      simp only [stepApp, hph]
      exact ⟨hA, hB, hC, hD, hE⟩
    | startPass q =>
      obtain ⟨hhist, hresp⟩ := hD q hph
      simp only [stepApp, hph, statusStartFeedback]
      by_cases hv : v = "user_feedback"
      · simp only [if_pos hv]
        refine ⟨hA, ?_, ?_, ?_, ?_⟩
        · intro h
          simp at h
        · intro _ hr
          rw [hhist]
          have hacc : ¬(s.acc = "") := by
            rw [← hresp]
            exact hr
          simp only [if_neg hacc]
          exact lc_pair _ _ _
        · intro q' hq'
          have hq2 : q = q' := by simpa using hq'
          subst hq2
          exact hD q hph
        · intro h
          rcases h with h | h <;> simp at h
      · simp only [if_neg hv]
        by_cases hf : v = "finished"
        · simp only [if_pos hf]
          refine ⟨hA, ?_, ?_, ?_, ?_⟩
          · intro h
            simp at h
          · intro h
            simp at h
          · intro q' hq'
            have hq2 : q = q' := by simpa using hq'
            subst hq2
            exact hD q hph
          · intro h
            rcases h with h | h <;> simp at h
        · simp only [if_neg hf]
          exact ⟨hA, hB, hC, hD, hE⟩
    | approvePass =>
      obtain ⟨hne, himp⟩ := hE (Or.inl hph)
      simp only [stepApp, hph, statusApprove]
      by_cases hf : v = "finished"
      · simp only [if_pos hf]
        refine ⟨hA, ?_, ?_, ?_, ?_⟩
        · intro h
          simp at h
        · intro h
          simp at h
        · intro q' hq'
          simp at hq'
        · intro _
          exact ⟨hne, himp⟩
      · simp only [if_neg hf]
        exact ⟨hA, hB, hC, hD, hE⟩
    | feedbackPass =>
      obtain ⟨hne, himp⟩ := hE (Or.inr hph)
      simp only [stepApp, hph, statusStartFeedback]
      by_cases hv : v = "user_feedback"
      · simp only [if_pos hv]
        refine ⟨hA, ?_, ?_, ?_, ?_⟩
        · intro h
          simp at h
        · intro _ hr
          exact himp hr
        · intro q' hq'
          simp at hq'
        · intro _
          exact ⟨hne, himp⟩
      · simp only [if_neg hv]
        by_cases hf : v = "finished"
        · simp only [if_pos hf]
          refine ⟨hA, ?_, ?_, ?_, ?_⟩
          · intro h
            simp at h
          · intro h
            simp at h
          · intro q' hq'
            simp at hq'
          · intro _
            exact ⟨hne, himp⟩
        · simp only [if_neg hf]
          exact ⟨hA, hB, hC, hD, hE⟩
  | streamError =>
    cases hph : s.phase with
    | idlePhase =>
      simp only [stepApp, hph]
      exact ⟨hA, hB, hC, hD, hE⟩
    | startPass q =>
      obtain ⟨hhist, hresp⟩ := hD q hph
      simp only [stepApp, hph]
      refine ⟨hA, ?_, ?_, ?_, ?_⟩
      · intro h
        simp at h
      · intro _ hr
        rw [hhist]
        have hacc : ¬(s.acc = "") := by
          rw [← hresp]
          exact hr
        simp only [if_neg hacc]
        exact lc_pair _ _ _
      · intro q' hq'
        have hq2 : q = q' := by simpa using hq'
        subst hq2
        exact hD q hph
      · intro h
        rcases h with h | h <;> simp at h
    | approvePass =>
      obtain ⟨hne, himp⟩ := hE (Or.inl hph)
      simp only [stepApp, hph]
      refine ⟨hA, ?_, ?_, ?_, ?_⟩
      · intro h
        simp at h
      · intro _ hr
        exact himp hr
      · intro q' hq'
        simp at hq'
      · intro _
        exact ⟨hne, himp⟩
    | feedbackPass =>
      obtain ⟨hne, himp⟩ := hE (Or.inr hph)
      simp only [stepApp, hph]
      refine ⟨hA, ?_, ?_, ?_, ?_⟩
      · intro h
        simp at h
      · intro _ hr
        exact himp hr
      · intro q' hq'
        simp at hq'
      · intro _
        exact ⟨hne, himp⟩
  | approveClick =>
    by_cases hg : s.uiState = "idle" ∧ reviewButtonsVisible s = true
    · have hall : ∀ m ∈ s.history, m.content.isSome = true :=
        allCommitted_of hA (lastCommitted_of_buttons hC hg.1 hg.2)
      simp only [stepApp, if_pos hg, handleApproveInit]
      refine ⟨dlc_concat_of hall _, ?_, ?_, ?_, ?_⟩
      · intro h
        simp at h
      · intro h
        simp at h
      · intro q' hq'
        simp at hq'
      · intro _
        refine ⟨by simp, ?_⟩
        intro hr
        exact absurd rfl hr
    · simp only [stepApp, if_neg hg]
      exact ⟨hA, hB, hC, hD, hE⟩
  | openFeedbackForm =>
    by_cases hg : s.uiState = "idle" ∧ reviewButtonsVisible s = true
    · have hlast := lastCommitted_of_buttons hC hg.1 hg.2
      simp only [stepApp, if_pos hg]
      refine ⟨hA, ?_, ?_, hD, hE⟩
      · intro _
        exact hlast
      · intro h
        simp at h
    · simp only [stepApp, if_neg hg]
      exact ⟨hA, hB, hC, hD, hE⟩
  | setFeedbackText f =>
    by_cases hg : s.uiState = "user_feedback"
    · simp only [stepApp, if_pos hg]
      exact ⟨hA, hB, hC, hD, hE⟩
    · simp only [stepApp, if_neg hg]
      exact ⟨hA, hB, hC, hD, hE⟩
  | feedbackSubmitClick =>
    by_cases hg : s.uiState = "user_feedback" ∧ ¬(jsTrim s.feedback = "")
    · have hall : ∀ m ∈ s.history, m.content.isSome = true :=
        allCommitted_of hA (hB hg.1)
      simp only [stepApp, if_pos hg, handleFeedbackInit]
      refine ⟨?_, ?_, ?_, ?_, ?_⟩
      · rw [append_two_eq]
        refine dlc_concat_of ?_ _
        intro m hm
        rcases List.mem_append.mp hm with hm | hm
        · exact hall m hm
        · have : m = ⟨.user, some s.feedback⟩ := by simpa using hm
          rw [this]
          rfl
      · intro h
        simp at h
      · intro h
        simp at h
      · intro q' hq'
        simp at hq'
      · intro _
        refine ⟨by simp, ?_⟩
        intro hr
        exact absurd rfl hr
    · simp only [stepApp, if_neg hg]
      exact ⟨hA, hB, hC, hD, hE⟩
  | cancelFeedback =>
    by_cases hg : s.uiState = "user_feedback"
    · simp only [stepApp, if_pos hg]
      refine ⟨hA, ?_, ?_, hD, hE⟩
      · intro h
        simp at h
      · intro _ _
        exact hB hg
    · simp only [stepApp, if_neg hg]
      exact ⟨hA, hB, hC, hD, hE⟩

theorem inv_foldl (evs : List AppEvent) {s : AppState} (hs : Inv s) :
    Inv (evs.foldl stepApp s) := by
  induction evs generalizing s with
  | nil => exact hs
  | cons e t ih => exact ih (inv_step hs e)

theorem inv_reach (evs : List AppEvent) : Inv (reach evs) :=
  inv_foldl evs inv_init

theorem stepExtends_of_eq {h h' : List Msg} (he : h' = h) : StepExtends h h' :=
  he ▸ self_extends h

theorem stepExtends_concat {h h' : List Msg} (t : List Msg)
    (he : h' = h ++ t) : StepExtends h h' := by
  obtain ⟨t0, ht0⟩ := self_extends h
  exact ⟨t0 ++ t, by rw [he, ← List.append_assoc, ← ht0]⟩

theorem step_extends {s : AppState} (hs : Inv s) (ev : AppEvent) :
    StepExtends s.history (stepApp s ev).history := by
  obtain ⟨hA, hB, hC, hD, hE⟩ := hs
  cases ev with
  | setQuestionText q =>
    by_cases hg : s.uiState = "idle" ∧ s.history = []
    · simp only [stepApp, if_pos hg]
      exact self_extends s.history
    · simp only [stepApp, if_neg hg]
      exact self_extends s.history
  | sendClick =>
    by_cases hg : s.uiState = "idle" ∧ s.history = [] ∧ ¬(jsTrim s.question = "")
    · simp only [stepApp, if_pos hg, handleStartInit, clearSourcesFn]
      rw [hg.2.1]
      exact ⟨[⟨.user, some s.question⟩, ⟨.assistant, none⟩], by simp⟩
    · simp only [stepApp, if_neg hg]
      exact self_extends s.history
  | enterKey k =>
    by_cases hg : s.uiState = "idle" ∧ s.history = [] ∧ k = "Enter" ∧
        ¬(jsTrim s.question = "")
    · simp only [stepApp, if_pos hg, handleStartInit, clearSourcesFn]
      rw [hg.2.1]
      exact ⟨[⟨.user, some s.question⟩, ⟨.assistant, none⟩], by simp⟩
    · simp only [stepApp, if_neg hg]
      exact self_extends s.history
  | tok c =>
    cases hph : s.phase with
    | idlePhase =>
      simp only [stepApp, hph]
      exact self_extends s.history
    | startPass q =>
      obtain ⟨hhist, _⟩ := hD q hph
      simp only [stepApp, hph, startTok]
      by_cases hc : c.isEmpty
      · simp only [if_pos hc]
        exact self_extends s.history
      · simp only [if_neg hc]
        rw [hhist]
        exact ⟨[⟨.assistant, some (s.acc ++ c)⟩], by simp [List.dropLast]⟩
    | approvePass =>
      simp only [stepApp, hph, tailTok]
      by_cases hc : c.isEmpty
      · simp only [if_pos hc]
        exact self_extends s.history
      · simp only [if_neg hc]
        exact ⟨[⟨.assistant, some (s.acc ++ c)⟩], rfl⟩
    | feedbackPass =>
      simp only [stepApp, hph, tailTok]
      by_cases hc : c.isEmpty
      · simp only [if_pos hc]
        exact self_extends s.history
      · simp only [if_neg hc]
        exact ⟨[⟨.assistant, some (s.acc ++ c)⟩], rfl⟩
  | sourcesEv xs conf =>
    apply stepExtends_of_eq
    cases hph : s.phase <;> simp only [stepApp, hph]
  | statusEv v =>
    apply stepExtends_of_eq
    cases hph : s.phase <;>
      simp only [stepApp, hph, statusStartFeedback, statusApprove] <;>
      split_ifs <;> rfl
  | streamError =>
    apply stepExtends_of_eq
    cases hph : s.phase <;> simp only [stepApp, hph]
  | approveClick =>
    by_cases hg : s.uiState = "idle" ∧ reviewButtonsVisible s = true
    · simp only [stepApp, if_pos hg, handleApproveInit]
      exact stepExtends_concat [⟨.assistant, none⟩] rfl
    · simp only [stepApp, if_neg hg]
      exact self_extends s.history
  | openFeedbackForm =>
    apply stepExtends_of_eq
    simp only [stepApp]
    split_ifs <;> rfl
  | setFeedbackText f =>
    apply stepExtends_of_eq
    simp only [stepApp]
    split_ifs <;> rfl
  | feedbackSubmitClick =>
    by_cases hg : s.uiState = "user_feedback" ∧ ¬(jsTrim s.feedback = "")
    · simp only [stepApp, if_pos hg, handleFeedbackInit]
      exact stepExtends_concat [⟨.user, some s.feedback⟩, ⟨.assistant, none⟩] rfl
    · simp only [stepApp, if_neg hg]
      exact self_extends s.history
  | cancelFeedback =>
    apply stepExtends_of_eq
    simp only [stepApp]
    split_ifs <;> rfl

theorem tok_replaces {s : AppState} (hs : Inv s) (c : String) :
    (stepApp s (.tok c)).history.length = s.history.length ∧
    (stepApp s (.tok c)).history.dropLast = s.history.dropLast := by
  obtain ⟨hA, hB, hC, hD, hE⟩ := hs
  cases hph : s.phase with
  | idlePhase => simp [stepApp, hph]
  | startPass q =>
    obtain ⟨hhist, _⟩ := hD q hph
    simp only [stepApp, hph, startTok]
    by_cases hc : c.isEmpty
    · simp [if_pos hc]
    · simp only [if_neg hc]
      rw [hhist]
      exact ⟨rfl, rfl⟩
  | approvePass =>
    obtain ⟨hne, _⟩ := hE (Or.inl hph)
    simp only [stepApp, hph, tailTok]
    by_cases hc : c.isEmpty
    · simp [if_pos hc]
    · simp only [if_neg hc]
      constructor
      · rw [List.length_append, List.length_dropLast]
        have hpos : 0 < s.history.length := List.length_pos.mpr hne
        simp
        omega
      · rw [List.dropLast_concat]
  | feedbackPass =>
    obtain ⟨hne, _⟩ := hE (Or.inr hph)
    simp only [stepApp, hph, tailTok]
    by_cases hc : c.isEmpty
    · simp [if_pos hc]
    · simp only [if_neg hc]
      constructor
      · rw [List.length_append, List.length_dropLast]
        have hpos : 0 < s.history.length := List.length_pos.mpr hne
        simp
        omega
      · rw [List.dropLast_concat]

theorem startRun (q : String) (ts : List String) (s : AppState)
    (hph : s.phase = .startPass q) (hresp : s.assistantResponse = s.acc)
    (hhist : s.history =
      [⟨.user, some q⟩,
       ⟨.assistant, if s.acc = "" then none else some s.acc⟩]) :
    (ts.map AppEvent.tok).foldl stepApp s =
      { s with acc := s.acc ++ concatFrags ts
               assistantResponse := s.acc ++ concatFrags ts
               history := [⟨.user, some q⟩,
                 ⟨.assistant, if s.acc ++ concatFrags ts = "" then none
                              else some (s.acc ++ concatFrags ts)⟩] } := by
  induction ts generalizing s with
  | nil =>
    simp only [List.map_nil, List.foldl_nil, concatFrags]
    rw [String.append_empty]
    cases s with
    | mk ui qf fb ar hist src rc vs ph acc req =>
      simp only at hresp hhist ⊢
      simp [hresp, hhist]
  | cons c ts ih =>
    simp only [List.map_cons, List.foldl_cons]
    have hstep : stepApp s (.tok c) = startTok q c s := by
      simp [stepApp, hph]
    rw [hstep]
    by_cases hc : c.isEmpty
    · have hce : c = "" := (String.isEmpty_iff c).mp hc
      rw [startTok, if_pos hc, ih s hph hresp hhist]
      subst hce
      simp [concatFrags, String.empty_append]
    · have hcne : ¬(c = "") := isEmpty_false_iff.mp (Bool.of_not_eq_true hc)
      have hane : ¬(s.acc ++ c = "") := append_ne_empty_of_right hcne
      rw [startTok, if_neg hc]
      show List.foldl stepApp
        { s with acc := s.acc ++ c, assistantResponse := s.acc ++ c
                 history := [⟨.user, some q⟩, ⟨.assistant, some (s.acc ++ c)⟩] }
        (List.map AppEvent.tok ts) = _
      rw [ih { s with acc := s.acc ++ c, assistantResponse := s.acc ++ c
                      history := [⟨.user, some q⟩,
                        ⟨.assistant, some (s.acc ++ c)⟩] }
          hph rfl (by simp [if_neg hane])]
      simp only [concatFrags]
      rw [String.append_assoc]

theorem tailRun (ts : List String) (H : List Msg) (s : AppState)
    (hph : s.phase = .approvePass ∨ s.phase = .feedbackPass)
    (hresp : s.assistantResponse = s.acc)
    (hhist : s.history =
      H ++ [⟨.assistant, if s.acc = "" then none else some s.acc⟩]) :
    (ts.map AppEvent.tok).foldl stepApp s =
      { s with acc := s.acc ++ concatFrags ts
               assistantResponse := s.acc ++ concatFrags ts
               history := H ++
                 [⟨.assistant, if s.acc ++ concatFrags ts = "" then none
                               else some (s.acc ++ concatFrags ts)⟩] } := by
  induction ts generalizing s with
  | nil =>
    simp only [List.map_nil, List.foldl_nil, concatFrags]
    rw [String.append_empty]
    cases s with
    | mk ui qf fb ar hist src rc vs ph acc req =>
      simp only at hresp hhist ⊢
      simp [hresp, hhist]
  | cons c ts ih =>
    simp only [List.map_cons, List.foldl_cons]
    have hstep : stepApp s (.tok c) = tailTok c s := by
      rcases hph with h | h <;> simp [stepApp, h]
    rw [hstep]
    by_cases hc : c.isEmpty
    · have hce : c = "" := (String.isEmpty_iff c).mp hc
      rw [tailTok, if_pos hc, ih s hph hresp hhist]
      subst hce
      simp [concatFrags, String.empty_append]
    · have hcne : ¬(c = "") := isEmpty_false_iff.mp (Bool.of_not_eq_true hc)
      have hane : ¬(s.acc ++ c = "") := append_ne_empty_of_right hcne
      have hdl : s.history.dropLast = H := by
        rw [hhist, List.dropLast_concat]
      rw [tailTok, if_neg hc]
      show List.foldl stepApp
        { s with acc := s.acc ++ c, assistantResponse := s.acc ++ c
                 history := s.history.dropLast ++
                   [⟨.assistant, some (s.acc ++ c)⟩] }
        (List.map AppEvent.tok ts) = _
      rw [ih { s with acc := s.acc ++ c, assistantResponse := s.acc ++ c
                      history := s.history.dropLast ++
                        [⟨.assistant, some (s.acc ++ c)⟩] }
          hph rfl (by simp [hdl, if_neg hane])]
      simp only [concatFrags, hdl]
      rw [String.append_assoc]

theorem streamTokRun (url : String) (ts : List String) (a : AppState)
    (sr : Bool) (fl : List String) :
    (ts.map mkTok).foldl (stepWithStream url)
        (a, ⟨true, sr, fl⟩) =
      ((ts.map AppEvent.tok).foldl stepApp a, ⟨true, sr, fl⟩) := by
  induction ts generalizing a with
  | nil => rfl
  | cons c ts ih =>
    simp only [List.map_cons, List.foldl_cons]
    have h1 : stepWithStream url (a, ⟨true, sr, fl⟩) (mkTok c) =
        (stepApp a (.tok c), ⟨true, sr, fl⟩) := rfl
    rw [h1]
    exact ih _

theorem reach_take_extends (evs : List AppEvent) (k : Nat) :
    StepExtends (reach (evs.take k)).history
      (reach (evs.take (k + 1))).history := by
  rw [List.take_succ]
  have hsplit : reach (evs.take k ++ (evs[k]?).toList) =
      ((evs[k]?).toList).foldl stepApp (reach (evs.take k)) := by
    rw [reach, reach, List.foldl_append]
  rw [hsplit]
  cases hk : evs[k]? with
  | none => simpa using self_extends (reach (evs.take k)).history
  | some e => simpa using step_extends (inv_reach (evs.take k)) e

/-! ## The claims -/

/-- C1 counterexample: a stream session that has received no `status` event
at all and whose connection then errors with readyState CLOSED invokes the
completion callback — not the error callback as the claim requires for a
closure with no preceding `status` event. -/
theorem C1_counterexample :
    streamStep (streamUrl "t1") (freshSession []) (.errorEvent .closed) =
      ({ isConnected := false, sourcesReceived := false, flags := [] },
       .complete) ∧
    Outcome.complete ≠ Outcome.error := by
  constructor
  · rfl
  · decide

/-- C1 (amended): after a `status` event the session's URL is marked in the
global map, and a subsequent connection error invokes the completion
callback; with no preceding `status` event on the URL, an error with
readyState CLOSED still invokes the completion callback, an error while
reconnecting (CONNECTING) invokes no callback, and only other errors invoke
the error callback. -/
theorem C1_close_classification (url : String) (s : SessionState)
    (rs : ReadyState) (v : String) :
    (s.isConnected = true →
      ((streamStep url s (.status (some v))).1).flags.contains url = true) ∧
    (s.flags.contains url = true →
      streamStep url s (.errorEvent rs) =
        ({ s with isConnected := false }, .complete)) ∧
    (s.flags.contains url = false → rs = .closed →
      streamStep url s (.errorEvent rs) =
        ({ s with isConnected := false }, .complete)) ∧
    (s.flags.contains url = false → rs = .connecting →
      streamStep url s (.errorEvent rs) = (s, .silent)) ∧
    (s.flags.contains url = false → rs = .opened →
      streamStep url s (.errorEvent rs) =
        ({ s with isConnected := false }, .error)) := by
  refine ⟨?_, ?_, ?_, ?_, ?_⟩
  · intro hconn
    simp [streamStep, hconn, List.contains_cons]
  · intro hf
    simp only [streamStep]
    rw [hf]
    simp
  · intro hf hrs
    subst hrs
    simp only [streamStep]
    rw [hf]
    simp
  · intro hf hrs
    subst hrs
    simp only [streamStep]
    rw [hf]
    simp
  · intro hf hrs
    subst hrs
    simp only [streamStep]
    rw [hf]
    simp

/-- Witness for C1's amended theorem at a concrete session. -/
theorem C1_close_classification_witness :
    ((streamStep (streamUrl "t1") (freshSession [])
        (.status (some "user_feedback"))).1).flags.contains
      (streamUrl "t1") = true ∧
    streamStep (streamUrl "t1") (freshSession []) (.errorEvent .opened) =
      ({ isConnected := false, sourcesReceived := false, flags := [] },
       .error) := by
  constructor
  · exact (C1_close_classification (streamUrl "t1") (freshSession [])
      .opened "user_feedback").1 rfl
  · exact (C1_close_classification (streamUrl "t1") (freshSession [])
      .opened "user_feedback").2.2.2.2 (by decide) rfl

/-- C2 counterexample: a drafting pass that receives zero `token` fragments
leaves the assistant entry pending with null content, which differs from
the empty string that the concatenation of the empty fragment sequence
yields. -/
theorem C2_counterexample :
    ((([] : List String).map mkTok).foldl
        (stepWithStream (streamUrl "t1"))
        (handleStartInit { initState with question := "Q" },
         freshSession [])).1.history =
      [⟨.user, some "Q"⟩, ⟨.assistant, none⟩] ∧
    [Msg.mk .user (some "Q"), Msg.mk .assistant none] ≠
      [Msg.mk .user (some "Q"), Msg.mk .assistant (some (concatFrags []))] := by
  constructor
  · rfl
  · decide

/-- C2 (amended): for every drafting pass and every sequence of `token`
event fragments fed through the stream client into the page callback, the
assistant entry holds exactly the left-to-right concatenation of the
fragments whenever that concatenation is non-empty; when the fragments
concatenate to the empty string (zero fragments, or only empty fragments),
the entry stays pending with null content. -/
theorem C2_token_concatenation (tid q : String) (ts : List String) :
    ((ts.map mkTok).foldl (stepWithStream (streamUrl tid))
        (handleStartInit { initState with question := q },
         freshSession [])).1.history =
      [⟨.user, some q⟩,
       ⟨.assistant, if concatFrags ts = "" then none
                    else some (concatFrags ts)⟩] := by
  rw [show freshSession [] = (⟨true, false, []⟩ : SessionState) from rfl]
  rw [streamTokRun]
  rw [startRun q ts (handleStartInit { initState with question := q })
      rfl rfl (by simp [handleStartInit, clearSourcesFn])]
  simp [handleStartInit, clearSourcesFn, String.empty_append]

/-- C4: along every event trace of the page, the history holds at most one
pending (null-content) assistant turn, and a delivered token fragment
substitutes the last history entry in place — the history's length and its
settled front are preserved, no assistant entry is appended. -/
theorem C4_single_pending_replaced (evs : List AppEvent) (c : String) :
    pendingCount (reach evs).history ≤ 1 ∧
    (stepApp (reach evs) (.tok c)).history.length =
      (reach evs).history.length ∧
    (stepApp (reach evs) (.tok c)).history.dropLast =
      (reach evs).history.dropLast := by
  have hinv := inv_reach evs
  exact ⟨pendingCount_le_one hinv.1, (tok_replaces hinv c).1,
    (tok_replaces hinv c).2⟩

/-- C5: submitting a feedback decision with an empty or whitespace-only
comment is rejected — the page state is unchanged and no resume request is
issued — while a decision with a non-blank comment issues exactly one
feedback resume request carrying the comment and appends the feedback turn
plus a pending assistant turn. -/
theorem C5_feedback_comment_gate (s : AppState) :
    (jsTrim s.feedback = "" → stepApp s .feedbackSubmitClick = s) ∧
    (s.uiState = "user_feedback" → ¬(jsTrim s.feedback = "") →
      (stepApp s .feedbackSubmitClick).requests =
        s.requests ++ [.resume "feedback" (some s.feedback)] ∧
      (stepApp s .feedbackSubmitClick).history =
        s.history ++ [⟨.user, some s.feedback⟩, ⟨.assistant, none⟩]) := by
  constructor
  · intro h
    have hng : ¬(s.uiState = "user_feedback" ∧ ¬(jsTrim s.feedback = "")) := by
      intro hg
      exact hg.2 h
    simp [stepApp, hng]
  · intro hui hne
    have hg : s.uiState = "user_feedback" ∧ ¬(jsTrim s.feedback = "") :=
      ⟨hui, hne⟩
    have hfe : ¬(s.feedback = "") := by
      intro hc
      apply hne
      rw [hc]
      rfl
    simp only [stepApp, if_pos hg, handleFeedbackInit]
    simp [mkResume, isEmpty_false_iff.mpr hfe]

/-- Witness for C5 at a whitespace-only and at a filled comment. -/
theorem C5_witness :
    stepApp c5StateBlank .feedbackSubmitClick = c5StateBlank ∧
    (stepApp c5StateFilled .feedbackSubmitClick).requests =
      c5StateFilled.requests ++
        [.resume "feedback" (some "use bullet points")] := by
  constructor
  · exact (C5_feedback_comment_gate c5StateBlank).1 (by decide)
  · exact ((C5_feedback_comment_gate c5StateFilled).2 rfl (by decide)).1

/-- C6: a conversation-start request is never issued for an empty or
whitespace-only question — both the Send click and the Enter key leave the
state unchanged — while a non-blank question issues the create request on
either path. -/
theorem C6_question_gate (s : AppState) (k : String) :
    (jsTrim s.question = "" →
      stepApp s .sendClick = s ∧ stepApp s (.enterKey k) = s) ∧
    (s.uiState = "idle" → s.history = [] → ¬(jsTrim s.question = "") →
      (stepApp s .sendClick).requests = s.requests ++ [.start s.question] ∧
      (stepApp s (.enterKey "Enter")).requests =
        s.requests ++ [.start s.question]) := by
  constructor
  · intro h
    constructor
    · have hng : ¬(s.uiState = "idle" ∧ s.history = [] ∧
          ¬(jsTrim s.question = "")) := by
        intro hg
        exact hg.2.2 h
      simp [stepApp, hng]
    · have hng : ¬(s.uiState = "idle" ∧ s.history = [] ∧ k = "Enter" ∧
          ¬(jsTrim s.question = "")) := by
        intro hg
        exact hg.2.2.2 h
      simp [stepApp, hng]
  · intro hui hh hq
    constructor
    · simp [stepApp, handleStartInit, clearSourcesFn, hui, hh, hq]
    · simp [stepApp, handleStartInit, clearSourcesFn, hui, hh, hq]

/-- Witness for C6 at a whitespace-only and at a filled question. -/
theorem C6_witness :
    stepApp c6StateBlank .sendClick = c6StateBlank ∧
    stepApp c6StateBlank (.enterKey "Enter") = c6StateBlank ∧
    (stepApp c6StateFilled .sendClick).requests =
      c6StateFilled.requests ++ [.start "what is X"] := by
  refine ⟨?_, ?_, ?_⟩
  · exact ((C6_question_gate c6StateBlank "Enter").1 (by decide)).1
  · exact ((C6_question_gate c6StateBlank "Enter").1 (by decide)).2
  · exact ((C6_question_gate c6StateFilled "Enter").2 rfl rfl (by decide)).1

theorem validate_confidences_aux (n : Nat) (cs : List ℚ) :
    ((List.enumFrom n (cs.map rawOfConfidence)).map
        (fun p => validateSource p.1 p.2)).map (fun v => v.confidence) = cs := by
  induction cs generalizing n with
  | nil => rfl
  | cons c cs ih =>
    simp only [List.map_cons, List.enumFrom]
    rw [ih]
    have hc : (validateSource n (rawOfConfidence c)).confidence = c := by
      simp only [validateSource, rawOfConfidence, jsOrQ]
      by_cases hz : c = 0
      · rw [if_pos hz, hz]
      · rw [if_neg hz]
    rw [hc]

theorem validate_confidences (cs : List ℚ) :
    (validateSources (cs.map rawOfConfidence)).map (fun v => v.confidence) =
      cs :=
  validate_confidences_aux 0 cs

theorem validate_length (cs : List ℚ) :
    (validateSources (cs.map rawOfConfidence)).length = cs.length := by
  have h := congrArg List.length (validate_confidences cs)
  rwa [List.length_map] at h

/-- C7: the `sources` event's aggregate confidence is the arithmetic mean
of the candidates' confidences and 0 for an empty list (multiplexer side,
modelled from the spec since the backend is not in the sources); the value
SourceViewer presents (`avgConfidence`) equals that mean for every
non-empty candidate list; and the client handles a `sources` event — the
empty list included — as a normal message, never via the error callback. -/
theorem C7_sources_confidence (cs : List ℚ) :
    (cs = [] → sourcesEventConfidence cs = 0) ∧
    (¬(cs = []) →
      svAvgConfidence (some (sourcesEventConfidence cs))
          (validateSources (cs.map rawOfConfidence)) =
        cs.sum / (cs.length : ℚ)) ∧
    (∀ (url : String) (sr : Bool) (fl : List String) (conf rt : Option ℚ),
      (streamStep url ⟨true, sr, fl⟩
          (.sources (some ⟨.arr (cs.map rawOfConfidence), conf, rt⟩))).2 =
        .message (.sourcesMsg (validateSources (cs.map rawOfConfidence))
          (jsOrQ conf 0) (jsOrQ rt 0))) := by
  refine ⟨?_, ?_, ?_⟩
  · intro h
    simp [sourcesEventConfidence, h]
  · intro h
    have hm : svMean (validateSources (cs.map rawOfConfidence)) =
        cs.sum / (cs.length : ℚ) := by
      rw [svMean, validate_confidences, validate_length]
    rw [svAvgConfidence, sourcesEventConfidence, if_neg h, jsOrQ]
    by_cases hz : cs.sum / (cs.length : ℚ) = 0
    · rw [if_pos hz, hm]
    · rw [if_neg hz]
  · intro url sr fl conf rt
    rfl

/-- Witness for C7: the empty list yields confidence 0, and for the list
with confidences 1/2 and 1 the presented average is their mean 3/4. -/
theorem C7_witness :
    sourcesEventConfidence [] = 0 ∧
    svAvgConfidence (some (sourcesEventConfidence [(1 : ℚ)/2, 1]))
      (validateSources ([(1 : ℚ)/2, 1].map rawOfConfidence)) = 3/4 := by
  constructor
  · exact (C7_sources_confidence []).1 rfl
  · have h := (C7_sources_confidence [(1 : ℚ)/2, 1]).2.1 (by simp)
    rw [h]
    norm_num

/-- C8: Resume against a conversation that does not exist, or that is not
in AwaitingDecision, returns an invalid-state error and leaves the store —
hence every conversation's stage and messages — unchanged (Session
Orchestrator modelled from the spec; the backend is not in the sources). -/
theorem C8_resume_rejects (st : Store) (tid : String) (d : Decision) :
    (lookupConv st tid = none →
      resumeConversation st tid d = (.error "conversation not found", st)) ∧
    (∀ c, lookupConv st tid = some c → ¬(c.stage = .awaitingDecision) →
      resumeConversation st tid d =
        (.error "conversation is not awaiting a decision", st)) := by
  constructor
  · intro h
    rw [resumeConversation, h]
  · intro c hc hs
    rw [resumeConversation, hc]
    simp [hs]

/-- Witness for C8: a store whose only conversation is still Drafting
rejects an approved resume, and an unknown id is rejected as missing. -/
theorem C8_witness :
    resumeConversation c8Store "t1" .approved =
      (.error "conversation is not awaiting a decision", c8Store) ∧
    resumeConversation c8Store "zz" .approved =
      (.error "conversation not found", c8Store) := by
  constructor
  · exact (C8_resume_rejects c8Store "t1" .approved).2
      { stage := .drafting, messages := [⟨.user, some "Q1"⟩],
        humanComment := none } rfl (by decide)
  · exact (C8_resume_rejects c8Store "zz" .approved).1 rfl

/-- C9: the status bookkeeping is the global URL-keyed map: a `status`
event on a connected session marks the session's URL; no event of any
session ever clears a mark; and on a session whose URL is marked — as every
later session for the same conversation id is, the URL being determined by
the id — a connection error always invokes the completion callback, never
the error callback. -/
theorem C9_status_flag_global (tid u2 : String) (s s2 : SessionState)
    (v : String) (ev : SEvent) (rs : ReadyState) :
    (s.isConnected = true →
      ((streamStep (streamUrl tid) s (.status (some v))).1).flags.contains
        (streamUrl tid) = true) ∧
    (s.flags.contains (streamUrl tid) = true →
      ((streamStep u2 s ev).1).flags.contains (streamUrl tid) = true) ∧
    (s2.flags.contains (streamUrl tid) = true →
      streamStep (streamUrl tid) s2 (.errorEvent rs) =
        ({ s2 with isConnected := false }, .complete)) := by
  refine ⟨?_, ?_, ?_⟩
  · intro hconn
    simp [streamStep, hconn, List.contains_cons]
  · intro hf
    cases ev with
    | token d =>
      cases hic : s.isConnected
      · simpa [streamStep, hic] using hf
      · cases d <;> simpa [streamStep, hic] using hf
    | sources d =>
      cases hic : s.isConnected
      · simpa [streamStep, hic] using hf
      · cases d with
        | none => simpa [streamStep, hic] using hf
        | some data =>
          cases hds : data.sources <;>
            simpa [streamStep, hic, hds] using hf
    | status d =>
      cases hic : s.isConnected
      · simpa [streamStep, hic] using hf
      · cases d with
        | none => simpa [streamStep, hic] using hf
        | some v2 =>
          simp [streamStep, hic, List.contains_cons]
          exact Or.inr (by simpa using hf)
    | startEv => simpa [streamStep] using hf
    | resumeEv => simpa [streamStep] using hf
    | errorEvent rs2 =>
      by_cases hfl : s.flags.contains u2 = true
      · simp only [streamStep]
        rw [hfl]
        simpa using hf
      · have hfl2 : s.flags.contains u2 = false := by
          simpa using hfl
        by_cases hcl : rs2 = .closed
        · simp only [streamStep]
          rw [hfl2]
          simpa [hcl] using hf
        · by_cases hcn : rs2 = .connecting
          · simp only [streamStep]
            rw [hfl2]
            simpa [hcl, hcn] using hf
          · simp only [streamStep]
            rw [hfl2]
            simpa [hcl, hcn] using hf
  · intro hf2
    simp only [streamStep]
    rw [hf2]
    simp

/-- Witness for C9 at concrete sessions of thread t1. -/
theorem C9_witness :
    ((streamStep (streamUrl "t1") (freshSession [])
        (.status (some "finished"))).1).flags.contains (streamUrl "t1") =
      true ∧
    ((streamStep (streamUrl "t2") ⟨true, false, [streamUrl "t1"]⟩
        SEvent.startEv).1).flags.contains (streamUrl "t1") = true ∧
    streamStep (streamUrl "t1") ⟨true, false, [streamUrl "t1"]⟩
        (.errorEvent .opened) =
      ({ isConnected := false, sourcesReceived := false,
         flags := [streamUrl "t1"] }, .complete) := by
  refine ⟨?_, ?_, ?_⟩
  · exact (C9_status_flag_global "t1" "t2" (freshSession [])
      (freshSession []) "finished" SEvent.startEv .opened).1 rfl
  · exact (C9_status_flag_global "t1" "t2"
      ⟨true, false, [streamUrl "t1"]⟩ (freshSession []) "finished"
      SEvent.startEv .opened).2.1 (by decide)
  · exact (C9_status_flag_global "t1" "t2" (freshSession [])
      ⟨true, false, [streamUrl "t1"]⟩ "finished" SEvent.startEv
      .opened).2.2 (by decide)

/-- C10: the sources listener normalizes every delivered candidate —
absent content becomes the empty string, absent source_type becomes "rag",
absent confidence becomes 0, and an absent metadata object or file key
becomes the "Unknown" file — and an event whose sources field is missing or
not an array is dropped silently, with neither the message nor the error
callback invoked. -/
theorem C10_sources_normalization (r : RawSource) (i : Nat) :
    (r.content = none → (validateSource i r).content = "") ∧
    (r.source_type = none → (validateSource i r).source_type = "rag") ∧
    (r.confidence = none → (validateSource i r).confidence = 0) ∧
    (r.metadata = none →
      (validateSource i r).metadata.file = some "Unknown") ∧
    (∀ m, r.metadata = some m → m.file = none →
      (validateSource i r).metadata.file = some "Unknown") ∧
    (∀ (url : String) (s : SessionState) (conf rt : Option ℚ),
      streamStep url s (.sources (some ⟨.absent, conf, rt⟩)) =
        (s, .silent) ∧
      streamStep url s (.sources (some ⟨.notArray, conf, rt⟩)) =
        (s, .silent)) := by
  refine ⟨?_, ?_, ?_, ?_, ?_, ?_⟩
  · intro h
    simp [validateSource, jsOrStr, h]
  · intro h
    simp [validateSource, jsOrStr, h]
  · intro h
    simp [validateSource, jsOrQ, h]
  · intro h
    simp [validateSource, validateMetadata, h]
  · intro m hm hf
    simp [validateSource, validateMetadata, hm, jsMerge, hf]
  · intro url s conf rt
    constructor <;> (cases hic : s.isConnected <;> simp [streamStep, hic])

/-- Witness for C10 at the all-defaults candidate and a dropped event. -/
theorem C10_witness :
    (validateSource 0 {}).content = "" ∧
    (validateSource 0 {}).source_type = "rag" ∧
    (validateSource 0 {}).confidence = 0 ∧
    (validateSource 0 {}).metadata.file = some "Unknown" ∧
    streamStep (streamUrl "t1") (freshSession [])
        (.sources (some ⟨.absent, none, none⟩)) =
      (freshSession [], .silent) := by
  have h := C10_sources_normalization {} 0
  exact ⟨h.1 rfl, h.2.1 rfl, h.2.2.1 rfl, h.2.2.2.1 rfl,
    (h.2.2.2.2.2 (streamUrl "t1") (freshSession []) none none).1⟩

/-- C3: one full feedback round — question "Q1", first draft streamed,
feedback "be shorter" submitted, second draft streamed — leaves exactly
four history entries in conversation order: the user question, the first
assistant draft, the user feedback comment, the second assistant draft;
and at every step of the trace the settled part of the history is only
extended, never reordered or deleted. -/
theorem C3_feedback_round_history (ds1 ds2 : List String)
    (h1 : ¬(concatFrags ds1 = "")) (h2 : ¬(concatFrags ds2 = "")) :
    (reach (c3Trace ds1 ds2)).history =
      [⟨.user, some "Q1"⟩, ⟨.assistant, some (concatFrags ds1)⟩,
       ⟨.user, some "be shorter"⟩, ⟨.assistant, some (concatFrags ds2)⟩] ∧
    (∀ k, StepExtends (reach ((c3Trace ds1 ds2).take k)).history
        (reach ((c3Trace ds1 ds2).take (k + 1))).history) := by
  refine ⟨?_, fun k => reach_take_extends _ k⟩
  rw [c3Trace, reach]
  rw [List.foldl_append, List.foldl_append, List.foldl_append,
      List.foldl_append]
  have hA1 : List.foldl stepApp initState
      [AppEvent.setQuestionText "Q1", AppEvent.sendClick] =
      { uiState := "waiting", question := "Q1", feedback := ""
        assistantResponse := ""
        history := [⟨.user, some "Q1"⟩, ⟨.assistant, none⟩]
        sources := [], retrievalConfidence := none
        validationSuccess := false, phase := .startPass "Q1", acc := ""
        requests := [.start "Q1"] } := by decide
  rw [hA1]
  have hA2 : List.foldl stepApp
      { uiState := "waiting", question := "Q1", feedback := ""
        assistantResponse := ""
        history := [⟨.user, some "Q1"⟩, ⟨.assistant, none⟩]
        sources := [], retrievalConfidence := none
        validationSuccess := false, phase := .startPass "Q1", acc := ""
        requests := [.start "Q1"] } (ds1.map AppEvent.tok) =
      { uiState := "waiting", question := "Q1", feedback := ""
        assistantResponse := concatFrags ds1
        history := [⟨.user, some "Q1"⟩,
          ⟨.assistant, some (concatFrags ds1)⟩]
        sources := [], retrievalConfidence := none
        validationSuccess := false, phase := .startPass "Q1"
        acc := concatFrags ds1, requests := [.start "Q1"] } := by
    rw [startRun "Q1" ds1 _ rfl rfl (by simp)]
    simp [String.empty_append, h1]
  rw [hA2]
  have hbtn : reviewButtonsVisible
      { uiState := "idle", question := "Q1", feedback := ""
        assistantResponse := concatFrags ds1
        history := [⟨.user, some "Q1"⟩,
          ⟨.assistant, some (concatFrags ds1)⟩]
        sources := [], retrievalConfidence := none
        validationSuccess := false, phase := .startPass "Q1"
        acc := concatFrags ds1, requests := [.start "Q1"] } = true := by
    simp [reviewButtonsVisible, jsTruthyStr_iff.mpr h1]
  have hA3 : List.foldl stepApp
      { uiState := "waiting", question := "Q1", feedback := ""
        assistantResponse := concatFrags ds1
        history := [⟨.user, some "Q1"⟩,
          ⟨.assistant, some (concatFrags ds1)⟩]
        sources := [], retrievalConfidence := none
        validationSuccess := false, phase := .startPass "Q1"
        acc := concatFrags ds1, requests := [.start "Q1"] }
      [AppEvent.statusEv "user_feedback", AppEvent.openFeedbackForm,
       AppEvent.setFeedbackText "be shorter",
       AppEvent.feedbackSubmitClick] =
      { uiState := "waiting", question := "Q1", feedback := ""
        assistantResponse := ""
        history := [⟨.user, some "Q1"⟩,
          ⟨.assistant, some (concatFrags ds1)⟩,
          ⟨.user, some "be shorter"⟩, ⟨.assistant, none⟩]
        sources := [], retrievalConfidence := none
        validationSuccess := false, phase := .feedbackPass, acc := ""
        requests := [.start "Q1",
          .resume "feedback" (some "be shorter")] } := by
    simp only [List.foldl_cons, List.foldl_nil]
    have hs1 : stepApp
        { uiState := "waiting", question := "Q1", feedback := ""
          assistantResponse := concatFrags ds1
          history := [⟨.user, some "Q1"⟩,
            ⟨.assistant, some (concatFrags ds1)⟩]
          sources := [], retrievalConfidence := none
          validationSuccess := false, phase := .startPass "Q1"
          acc := concatFrags ds1, requests := [.start "Q1"] }
        (AppEvent.statusEv "user_feedback") =
        { uiState := "idle", question := "Q1", feedback := ""
          assistantResponse := concatFrags ds1
          history := [⟨.user, some "Q1"⟩,
            ⟨.assistant, some (concatFrags ds1)⟩]
          sources := [], retrievalConfidence := none
          validationSuccess := false, phase := .startPass "Q1"
          acc := concatFrags ds1, requests := [.start "Q1"] } := rfl
    rw [hs1]
    have hs2 : stepApp
        { uiState := "idle", question := "Q1", feedback := ""
          assistantResponse := concatFrags ds1
          history := [⟨.user, some "Q1"⟩,
            ⟨.assistant, some (concatFrags ds1)⟩]
          sources := [], retrievalConfidence := none
          validationSuccess := false, phase := .startPass "Q1"
          acc := concatFrags ds1, requests := [.start "Q1"] }
        AppEvent.openFeedbackForm =
        { uiState := "user_feedback", question := "Q1", feedback := ""
          assistantResponse := concatFrags ds1
          history := [⟨.user, some "Q1"⟩,
            ⟨.assistant, some (concatFrags ds1)⟩]
          sources := [], retrievalConfidence := none
          validationSuccess := false, phase := .startPass "Q1"
          acc := concatFrags ds1, requests := [.start "Q1"] } := by
      simp [stepApp, hbtn]
    rw [hs2]
    have hs3 : stepApp
        { uiState := "user_feedback", question := "Q1", feedback := ""
          assistantResponse := concatFrags ds1
          history := [⟨.user, some "Q1"⟩,
            ⟨.assistant, some (concatFrags ds1)⟩]
          sources := [], retrievalConfidence := none
          validationSuccess := false, phase := .startPass "Q1"
          acc := concatFrags ds1, requests := [.start "Q1"] }
        (AppEvent.setFeedbackText "be shorter") =
        { uiState := "user_feedback", question := "Q1"
          feedback := "be shorter"
          assistantResponse := concatFrags ds1
          history := [⟨.user, some "Q1"⟩,
            ⟨.assistant, some (concatFrags ds1)⟩]
          sources := [], retrievalConfidence := none
          validationSuccess := false, phase := .startPass "Q1"
          acc := concatFrags ds1, requests := [.start "Q1"] } := rfl
    rw [hs3]
    rfl
  rw [hA3]
  have hA4 : List.foldl stepApp
      { uiState := "waiting", question := "Q1", feedback := ""
        assistantResponse := ""
        history := [⟨.user, some "Q1"⟩,
          ⟨.assistant, some (concatFrags ds1)⟩,
          ⟨.user, some "be shorter"⟩, ⟨.assistant, none⟩]
        sources := [], retrievalConfidence := none
        validationSuccess := false, phase := .feedbackPass, acc := ""
        requests := [.start "Q1",
          .resume "feedback" (some "be shorter")] }
      (ds2.map AppEvent.tok) =
      { uiState := "waiting", question := "Q1", feedback := ""
        assistantResponse := concatFrags ds2
        history := [⟨.user, some "Q1"⟩,
          ⟨.assistant, some (concatFrags ds1)⟩,
          ⟨.user, some "be shorter"⟩,
          ⟨.assistant, some (concatFrags ds2)⟩]
        sources := [], retrievalConfidence := none
        validationSuccess := false, phase := .feedbackPass
        acc := concatFrags ds2
        requests := [.start "Q1",
          .resume "feedback" (some "be shorter")] } := by
    rw [tailRun ds2
        [⟨.user, some "Q1"⟩, ⟨.assistant, some (concatFrags ds1)⟩,
         ⟨.user, some "be shorter"⟩] _ (Or.inr rfl) rfl (by simp)]
    simp [String.empty_append, h2]
  rw [hA4]
  rfl

/-- Witness for C3 at concrete two-fragment and one-fragment drafts. -/
theorem C3_witness :
    (reach (c3Trace ["Hello", " world"] ["Short."])).history =
      [⟨.user, some "Q1"⟩, ⟨.assistant, some "Hello world"⟩,
       ⟨.user, some "be shorter"⟩, ⟨.assistant, some "Short."⟩] := by
  have h := (C3_feedback_round_history ["Hello", " world"] ["Short."]
    (by decide) (by decide)).1
  simpa [concatFrags] using h

end DocAssistant
